import Mathlib

/-!
Verification of the broker manager (`broker_manager.go`) of a Kafka client.

The Go code is embedded shallowly:

* the mutable `brokerManager` struct becomes an explicit state record that is
  threaded through every operation;
* Go maps become lists looked up by key (`brokers` is keyed by the broker's
  `id` field, which is exactly how the Go code writes it); lookups find the
  first match, upserts replace in place, `delete` filters;
* all network I/O happens in `sendAndReceive`; it is modelled by an
  environment that, given the number of sends performed so far and the id of
  the target broker, yields the outcome of that send (the `(gotResponse, err)`
  pair together with what the response decoder would hold afterwards);
* the state additionally records a trace of send events and of
  `refreshTopics` invocations, so that resource-bound claims ("at most two
  sends", "exactly one refresh") can be stated; the trace is pure
  instrumentation and never influences control flow (the environment is
  indexed by the number of sends, mirroring that a real network run is one
  fixed sequence of outcomes);
* the `sendToAny` loop terminates in Go because every failed iteration
  removes the attempted broker from the map; the embedding makes this an
  explicit fuel argument, with fuel `brokers.length + 2` proved sufficient.
-/

/-- Error values that the Go code can carry in its `error` results:
`EncodingError`, a transport/broker error (`default` branch of the type
switches), a protocol error code such as the topic- and partition-level
`kafkaError` codes, and `OutOfBrokers`. -/
inductive KError where
  | encodingError : KError
  | brokerError : KError
  | kafkaError : Int → KError
  | outOfBrokers : KError
deriving DecidableEq

deriving instance DecidableEq for Except

/-- Sentinel "no error" code at topic and partition level. -/
def NO_ERROR : Int := 0

/-- The `UNKNOWN_TOPIC_OR_PARTITION` protocol error code (code 3). -/
def UNKNOWN_TOPIC_OR_PARTITION : KError := KError.kafkaError 3

/-- A broker endpoint: numeric id, host, port. -/
structure broker where
  id : Int
  host : String
  port : Int
deriving DecidableEq

/-- A partition record from a metadata response: partition id, leader broker
id, and the per-partition error code. Replica lists are irrelevant to the
manager and omitted. -/
structure partitionMetadata where
  id : Int
  leader : Int
  err : Int
deriving DecidableEq

/-- A topic descriptor of a metadata response: name, topic-level error code,
partition descriptors, per the response shape consumed by `refreshTopics`. -/
structure topicMetadata where
  name : String
  err : Int
  partitions : List partitionMetadata
deriving DecidableEq

/-- A decoded metadata response: broker descriptors and topic descriptors.
Its zero value (both lists empty) is what `refreshTopics` reads when the
request was sent but no response was decoded. -/
structure metadata where
  brokers : List broker
  topics : List topicMetadata
deriving DecidableEq

/-- The zero value of `metadata` (`new(metadata)` before any decoding). -/
def emptyMetadata : metadata := ⟨[], []⟩

/-- One recorded `sendAndReceive` call: whether it sent the caller's request
(as opposed to a metadata request), the target broker's id, and its outcome
(`gotResponse`, the error, and the `staleTopics()` the response decoder
would report if a response was decoded). -/
structure SendEv where
  userReq : Bool
  brokerId : Int
  gotResponse : Bool
  errE : Option KError
  stale : List String
deriving DecidableEq

/-- The outcome the network yields for one `sendAndReceive` call: the
`gotResponse` flag, the error (`none` = Go `nil`), the `staleTopics()` of
the decoded response (consulted for sends of the caller's request), and the
decoded metadata (consulted for metadata requests). -/
structure SendSpec where
  gotResponse : Bool
  errE : Option KError
  stale : List String
  meta : metadata
deriving DecidableEq

/-- The network environment: the outcome of the `n`-th send of a call
sequence, as a function of `n` and the target broker's id. -/
def Env : Type := Nat → Int → SendSpec

/-- The broker manager state: the default-broker slot, the `brokers` map
(keyed by broker id), the `partitions` map (topic name → partition id →
partition record), plus the instrumentation traces (most recent first). -/
structure brokerManager where
  defaultBroker : Option broker
  brokers : List broker
  partitions : List (String × List partitionMetadata)
  sends : List SendEv
  refreshes : List (List String)
deriving DecidableEq

/-- Lookup in the `partitions` map by topic name. -/
def tlookup : List (String × List partitionMetadata) → String → Option (List partitionMetadata)
  | [], _ => none
  | (n, m) :: rest, k => if n = k then some m else tlookup rest k

/-- Lookup in a topic's inner map by partition id. -/
def findPart : List partitionMetadata → Int → Option partitionMetadata
  | [], _ => none
  | p :: rest, i => if p.id = i then some p else findPart rest i

/-- Lookup in the `brokers` map by broker id. -/
def findBroker : List broker → Int → Option broker
  | [], _ => none
  | b :: rest, i => if b.id = i then some b else findBroker rest i

/-- Go `delete(bm.brokers, id)`. -/
def removeBroker : List broker → Int → List broker
  | [], _ => []
  | b :: rest, i => if b.id = i then removeBroker rest i else b :: removeBroker rest i

/-- Go `bm.brokers[b.id] = b` (map upsert). -/
def upsertBroker : List broker → broker → List broker
  | [], b => [b]
  | x :: rest, b => if x.id = b.id then b :: rest else x :: upsertBroker rest b

/-- Go `bm.partitions[name] = m` (map upsert in the outer map). -/
def setTopic : List (String × List partitionMetadata) → String → List partitionMetadata → List (String × List partitionMetadata)
  | [], k, m => [(k, m)]
  | (n, old) :: rest, k, m => if n = k then (k, m) :: rest else (n, old) :: setTopic rest k m

/-- Go `id_map[p.id] = p` (map upsert in a topic's inner map). -/
def insertPart : List partitionMetadata → partitionMetadata → List partitionMetadata
  | [], p => [p]
  | q :: rest, p => if q.id = p.id then p :: rest else q :: insertPart rest p

/-- `terminateBroker`: removes the broker id from the `brokers` map. -/
def terminateBroker (s : brokerManager) (i : Int) : brokerManager :=
  { s with brokers := removeBroker s.brokers i }

/-- `getLeader`: pure lookup of the cached leader of `(topic, partition_id)`.
Returns `none` when the topic is absent, the partition is absent, or the
partition's leader id is not a key of `brokers`. -/
def getLeader (s : brokerManager) (topic : String) (partition_id : Int) : Option broker :=
  match tlookup s.partitions topic with
  | none => none
  | some id_map =>
    match findPart id_map partition_id with
    | none => none
    | some partition => findBroker s.brokers partition.leader

/-- `getDefault`: returns the default-broker slot if set; otherwise fills it
with an arbitrary broker from `brokers` (the embedding picks the first). -/
def getDefault (s : brokerManager) : Option broker × brokerManager :=
  match s.defaultBroker with
  | some b => (some b, s)
  | none =>
    match s.brokers with
    | [] => (none, s)
    | b :: _ => (some b, { s with defaultBroker := some b })

/-- Record one `sendAndReceive` call with outcome `sp` against broker `b` in
the trace. -/
def recordSend (userReq : Bool) (b : broker) (sp : SendSpec) (s : brokerManager) : brokerManager :=
  { s with sends := ⟨userReq, b.id, sp.gotResponse, sp.errE, sp.stale⟩ :: s.sends }

/-- One `sendAndReceive` call against broker `b`: looks up the environment at
the current send count and records the event in the trace. -/
def doSend (env : Env) (userReq : Bool) (b : broker) (s : brokerManager) : SendSpec × brokerManager :=
  (env s.sends.length b.id, recordSend userReq b (env s.sends.length b.id) s)

/-- The result of `sendToAny`: the `(gotResponse, err)` pair and the decoded
metadata the response object holds afterwards (its zero value when no
response was decoded or the send failed). -/
structure AnyRes where
  gotResponse : Bool
  errE : Option KError
  meta : metadata
deriving DecidableEq

/-- The loop of `sendToAny`, with explicit fuel. Each failing iteration
clears the default slot and terminates the attempted broker; in Go this
makes the loop terminate because the attempted broker leaves the map, and
fuel `s.brokers.length + 2` is proved sufficient below. -/
def sendToAnyAux (env : Env) : Nat → brokerManager → AnyRes × brokerManager
  | 0, s => (⟨false, some KError.outOfBrokers, emptyMetadata⟩, s)
  | fuel + 1, s =>
    match getDefault s with
    | (none, s1) => (⟨false, some KError.outOfBrokers, emptyMetadata⟩, s1)
    | (some b, s1) =>
      let (sp, s2) := doSend env false b s1
      match sp.errE with
      | none => (⟨sp.gotResponse, none, if sp.gotResponse then sp.meta else emptyMetadata⟩, s2)
      | some e =>
        if e = KError.encodingError then (⟨sp.gotResponse, some KError.encodingError, emptyMetadata⟩, s2)
        else sendToAnyAux env fuel (terminateBroker { s2 with defaultBroker := none } b.id)

/-- `sendToAny`: loops over default brokers until a definitive result
(`nil` error or encoding error) or no default broker remains
(`OutOfBrokers`). -/
def sendToAny (env : Env) (s : brokerManager) : AnyRes × brokerManager :=
  sendToAnyAux env (s.brokers.length + 2) s

/-- The per-topic body of the cache update of `refreshTopics`: inserts the
topic's partitions into an inner map built from scratch, stopping at the
first partition whose error code is not `NO_ERROR` (that partition is not
inserted). Returns the first partition error code, if any, and the inner
map built so far. -/
def buildInner : List partitionMetadata → List partitionMetadata → Option Int × List partitionMetadata
  | [], acc => (none, acc)
  | p :: ps, acc =>
    if p.err ≠ NO_ERROR then (some p.err, acc)
    else buildInner ps (insertPart acc p)

/-- The topics loop of the cache update of `refreshTopics`: for each topic in
response order, reports the topic-level error code if set (leaving that
topic's cache entry untouched), otherwise replaces the topic's inner map
wholesale, stopping at the first partition-level error (the partial inner
map that was already written remains in place). -/
def applyTopics : List topicMetadata → brokerManager → Option KError × brokerManager
  | [], s => (none, s)
  | t :: ts, s =>
    if t.err ≠ NO_ERROR then (some (KError.kafkaError t.err), s)
    else
      match buildInner t.partitions [] with
      | (some e, acc) => (some (KError.kafkaError e), { s with partitions := setTopic s.partitions t.name acc })
      | (none, acc) => applyTopics ts { s with partitions := setTopic s.partitions t.name acc }

/-- The cache update of `refreshTopics` (lines 188–211 of the source): upserts
every broker of the response into `brokers`, then runs the topics loop. -/
def applyMetadata (m : metadata) (s : brokerManager) : Option KError × brokerManager :=
  applyTopics m.topics { s with brokers := m.brokers.foldl upsertBroker s.brokers }

/-- `refreshTopics`: sends a metadata request via `sendToAny` and, unless the
send itself failed, applies the decoded response to the cache. The topics
argument is recorded in the refresh trace. -/
def refreshTopics (env : Env) (topics : List String) (s : brokerManager) : Option KError × brokerManager :=
  let s0 := { s with refreshes := topics :: s.refreshes }
  let (r, s1) := sendToAny env s0
  match r.errE with
  | some e => (some e, s1)
  | none => applyMetadata r.meta s1

/-- `refreshTopic`: the singleton convenience wrapper. -/
def refreshTopic (env : Env) (topic : String) (s : brokerManager) : Option KError × brokerManager :=
  refreshTopics env [topic] s

/-- `getValidLeader`: cache lookup, one refresh of the topic on a miss, then
a second lookup; `UNKNOWN_TOPIC_OR_PARTITION` when still absent. -/
def getValidLeader (env : Env) (topic : String) (partition_id : Int) (s : brokerManager) : Except KError broker × brokerManager :=
  match getLeader s topic partition_id with
  | some b => (Except.ok b, s)
  | none =>
    let (e, s1) := refreshTopic env topic s
    match e with
    | some err => (Except.error err, s1)
    | none =>
      match getLeader s1 topic partition_id with
      | some b => (Except.ok b, s1)
      | none => (Except.error UNKNOWN_TOPIC_OR_PARTITION, s1)

/-- `partitionsForTopic`: returns the partition ids of the topic's inner map,
refreshing the topic once when it is absent; `UNKNOWN_TOPIC_OR_PARTITION`
when it is still absent after the refresh. -/
def partitionsForTopic (env : Env) (topic : String) (s : brokerManager) : Except KError (List Int) × brokerManager :=
  match tlookup s.partitions topic with
  | some id_map => (Except.ok (id_map.map (fun p => p.id)), s)
  | none =>
    let (e, s1) := refreshTopic env topic s
    match e with
    | some err => (Except.error err, s1)
    | none =>
      match tlookup s1.partitions topic with
      | none => (Except.error UNKNOWN_TOPIC_OR_PARTITION, s1)
      | some id_map => (Except.ok (id_map.map (fun p => p.id)), s1)

/-- The second attempt of `sendToPartition` (lines 144–149): re-resolve the
leader, send once, return the result verbatim. -/
def secondAttempt (env : Env) (topic : String) (partition : Int) (s : brokerManager) : (Bool × Option KError) × brokerManager :=
  match getValidLeader env topic partition s with
  | (Except.error e, s1) => ((false, some e), s1)
  | (Except.ok b, s1) =>
    let (sp, s2) := doSend env true b s1
    ((sp.gotResponse, sp.errE), s2)

/-- `sendToPartition`: resolve the leader, send; on encoding error return it;
on a clean response with stale topics refresh them (propagating a refresh
failure with `gotResponse = true`) and retry once; on a broker error
terminate the broker and retry once; the second attempt's result is
returned verbatim. -/
def sendToPartition (env : Env) (topic : String) (partition : Int) (s : brokerManager) : (Bool × Option KError) × brokerManager :=
  match getValidLeader env topic partition s with
  | (Except.error e, s1) => ((false, some e), s1)
  | (Except.ok b, s1) =>
    let (sp, s2) := doSend env true b s1
    match sp.errE with
    | none =>
      if sp.gotResponse then
        if sp.stale.length = 0 then ((true, none), s2)
        else
          let (e, s3) := refreshTopics env sp.stale s2
          match e with
          | some err => ((true, some err), s3)
          | none => secondAttempt env topic partition s3
      else ((false, none), s2)
    | some e =>
      if e = KError.encodingError then ((false, some KError.encodingError), s2)
      else secondAttempt env topic partition (terminateBroker s2 b.id)

/-- Number of sends of the caller's request in a trace. -/
def userSends (l : List SendEv) : Nat := (l.filter (fun e => e.userReq)).length

/-- Whether a send event decoded a response into the caller's response
decoder: a send of the caller's request, with a `nil` error and
`gotResponse = true`. -/
def decodedUser (e : SendEv) : Bool := e.userReq && e.gotResponse && (e.errE == none)

/-- The `staleTopics()` of the most recent response decoded into the
caller's response decoder in a trace (traces list the most recent event
first). -/
def lastUserResponseStale (l : List SendEv) : Option (List String) :=
  ((l.filter decodedUser).head?).map (fun e => e.stale)

/-- Spec-side scan: the first partition-level error code of a partition
list, in response order. -/
def firstPartErr : List partitionMetadata → Option Int
  | [] => none
  | p :: ps => if p.err ≠ NO_ERROR then some p.err else firstPartErr ps

/-- Spec-side scan, following the spec's words "the first topic-level or
partition-level error code encountered" in response order. -/
def specFirstErrorCode : List topicMetadata → Option Int
  | [] => none
  | t :: ts =>
    if t.err ≠ NO_ERROR then some t.err
    else
      match firstPartErr t.partitions with
      | some e => some e
      | none => specFirstErrorCode ts

/-- Spec-side scan: the prefix of topics that a cache update processes
completely before the first topic- or partition-level error stops it. -/
def specProcessedTopics : List topicMetadata → List topicMetadata
  | [] => []
  | t :: ts =>
    if t.err = NO_ERROR ∧ firstPartErr t.partitions = none then t :: specProcessedTopics ts
    else []

/-- Spec-side scan: the partitions that precede the first erroneous
partition of a response's partition list. -/
def goodPrefix : List partitionMetadata → List partitionMetadata
  | [] => []
  | p :: ps => if p.err = NO_ERROR then p :: goodPrefix ps else []


/-! ### Concrete brokers, states, environments and responses used to
evaluate the model on explicit runs -/

/-- A bootstrap broker. -/
def b0 : broker := ⟨0, "h", 1⟩

/-- A cached broker with id 1. -/
def b1 : broker := ⟨1, "i", 2⟩

/-- A cached broker with id 2. -/
def b2 : broker := ⟨2, "j", 3⟩

/-- The empty manager state. -/
def s0empty : brokerManager := ⟨none, [], [], [], []⟩

/-- A state whose cache maps topic `"t"`, partition 0, to leader `b1`, with
`b0` in the default slot. -/
def cStateA : brokerManager := ⟨some b0, [b1], [("t", [⟨0, 1, 0⟩])], [], []⟩

/-- A run in which the first send of the caller's request yields a response
with stale topic `"t"`, the metadata refresh succeeds with an empty
response, and the second send yields a response that again reports `"t"`
stale. -/
def cEnvA : Env := fun n _ =>
  match n with
  | 0 => ⟨true, none, ["t"], emptyMetadata⟩
  | 1 => ⟨true, none, [], emptyMetadata⟩
  | _ => ⟨true, none, ["t"], emptyMetadata⟩

/-- A network in which every send fails with a broker error. -/
def envFail : Env := fun _ _ => ⟨false, some KError.brokerError, [], emptyMetadata⟩

/-- A state with a default broker and two cached brokers. -/
def sFail : brokerManager := ⟨some b0, [b1, b2], [], [], []⟩

/-- A metadata response whose third topic carries a topic-level error and
whose second topic carries a partition-level error further on. -/
def m4 : metadata :=
  ⟨[b2], [⟨"a", 0, [⟨0, 2, 0⟩]⟩, ⟨"b", 0, [⟨0, 2, 0⟩, ⟨1, 2, 5⟩]⟩, ⟨"c", 4, []⟩]⟩

/-- A network that always answers with a metadata response referencing
leader 7 while listing no broker descriptors. -/
def env5 : Env := fun _ _ => ⟨true, none, [], ⟨[], [⟨"t", 0, [⟨0, 7, 0⟩]⟩]⟩⟩

/-- A state with only a bootstrap default broker and an empty cache. -/
def s5 : brokerManager := ⟨some b0, [], [], [], []⟩

/-- A metadata response that lists a broker descriptor for every leader id
it references. -/
def m5w : metadata := ⟨[⟨7, "k", 4⟩], [⟨"t", 0, [⟨0, 7, 0⟩]⟩]⟩

/-- A network in which every send fails with an encoding error. -/
def env6 : Env := fun _ _ => ⟨false, some KError.encodingError, [], emptyMetadata⟩

/-- A state whose cache resolves topic `"t"`, partition 0, to leader `b1`. -/
def s6 : brokerManager := ⟨none, [b1], [("t", [⟨0, 1, 0⟩])], [], []⟩

/-- A network whose metadata responses report topic `"t"` with partitions
0 and 4 led by broker 1. -/
def env8 : Env := fun _ _ => ⟨true, none, [], ⟨[b1], [⟨"t", 0, [⟨0, 1, 0⟩, ⟨4, 1, 0⟩]⟩]⟩⟩

/-- A state with a default broker and an empty partitions cache. -/
def s8 : brokerManager := ⟨some b0, [], [], [], []⟩

/-- A run whose first send of the caller's request reports stale topic
`"t"` and whose subsequent sends all fail with broker errors, so the
refresh triggered by the stale signal fails. -/
def env9 : Env := fun n _ =>
  if n = 0 then ⟨true, none, ["t"], emptyMetadata⟩
  else ⟨false, some KError.brokerError, [], emptyMetadata⟩

/-- A state whose cache resolves topic `"t"`, partition 0, to leader `b1`,
with `b0` in the default slot. -/
def s9 : brokerManager := ⟨some b0, [b1], [("t", [⟨0, 1, 0⟩])], [], []⟩

/-- A state whose cache holds partition 5 of topic `"t"`. -/
def s10 : brokerManager := ⟨none, [], [("t", [⟨5, 1, 0⟩])], [], []⟩

/-- A metadata response whose topic `"t"` has an erroneous partition (id 1)
between two healthy partitions (ids 0 and 2). -/
def m10 : metadata := ⟨[], [⟨"t", 0, [⟨0, 1, 0⟩, ⟨1, 1, 6⟩, ⟨2, 1, 0⟩]⟩]⟩

/-- A network whose every response is clean with no stale topics. -/
def envC1w : Env := fun _ _ => ⟨true, none, [], emptyMetadata⟩

/-! ### Trace and preservation lemmas -/

theorem filter_user_nil (l : List SendEv) (h : ∀ e ∈ l, e.userReq = false) :
    l.filter (fun e => e.userReq) = [] := by
  induction l with
  | nil => rfl
  | cons a l ih =>
    have ha := h a (by simp)
    simp only [List.filter, ha]
    exact ih (fun e he => h e (by simp [he]))

theorem filter_decoded_nil (l : List SendEv) (h : ∀ e ∈ l, e.userReq = false) :
    l.filter decodedUser = [] := by
  induction l with
  | nil => rfl
  | cons a l ih =>
    have ha := h a (by simp)
    simp only [List.filter, decodedUser, ha, Bool.false_and]
    exact ih (fun e he => h e (by simp [he]))

theorem userSends_append (l1 l2 : List SendEv) :
    userSends (l1 ++ l2) = userSends l1 + userSends l2 := by
  simp [userSends, List.filter_append]

theorem userSends_of_nonuser (l : List SendEv) (h : ∀ e ∈ l, e.userReq = false) :
    userSends l = 0 := by
  simp [userSends, filter_user_nil l h]

theorem userSends_cons_user (e : SendEv) (l : List SendEv) (h : e.userReq = true) :
    userSends (e :: l) = userSends l + 1 := by
  simp [userSends, List.filter, h]

theorem getDefault_eq (s : brokerManager) (ob : Option broker) (s1 : brokerManager)
    (h : getDefault s = (ob, s1)) :
    s1.brokers = s.brokers ∧ s1.partitions = s.partitions
      ∧ s1.sends = s.sends ∧ s1.refreshes = s.refreshes := by
  rcases s with ⟨d, bs, ps, sd, rf⟩
  cases d with
  | some b =>
    simp only [getDefault] at h
    injection h with h1 h2
    subst h2
    exact ⟨rfl, rfl, rfl, rfl⟩
  | none =>
    cases bs with
    | nil =>
      simp only [getDefault] at h
      injection h with h1 h2
      subst h2
      exact ⟨rfl, rfl, rfl, rfl⟩
    | cons b rest =>
      simp only [getDefault] at h
      injection h with h1 h2
      subst h2
      exact ⟨rfl, rfl, rfl, rfl⟩

theorem sendToAnyAux_trace (env : Env) : ∀ (fuel : Nat) (s : brokerManager),
    (∃ new, (sendToAnyAux env fuel s).2.sends = new ++ s.sends ∧ ∀ e ∈ new, e.userReq = false)
      ∧ (sendToAnyAux env fuel s).2.partitions = s.partitions
      ∧ (sendToAnyAux env fuel s).2.refreshes = s.refreshes := by
  intro fuel
  induction fuel with
  | zero => intro s; exact ⟨⟨[], rfl, by simp⟩, rfl, rfl⟩
  | succ n ih =>
    intro s
    rcases hgd : getDefault s with ⟨ob, s1⟩
    obtain ⟨hb, hp, hs, hr⟩ := getDefault_eq s ob s1 hgd
    cases ob with
    | none =>
      simp only [sendToAnyAux, hgd]
      exact ⟨⟨[], by simp [hs], by simp⟩, hp, hr⟩
    | some b =>
      simp only [sendToAnyAux, hgd, doSend]
      rcases hsp : (env s1.sends.length b.id).errE with _ | e
      · simp only [hsp]
        refine ⟨⟨[⟨false, b.id, (env s1.sends.length b.id).gotResponse,
            (env s1.sends.length b.id).errE, (env s1.sends.length b.id).stale⟩],
            by simp [recordSend, hs, hsp], by simp⟩, ?_, ?_⟩
        · simp [recordSend, hp]
        · simp [recordSend, hr]
      · by_cases he : e = KError.encodingError
        · simp only [hsp, he, if_pos rfl]
          refine ⟨⟨[⟨false, b.id, (env s1.sends.length b.id).gotResponse,
              (env s1.sends.length b.id).errE, (env s1.sends.length b.id).stale⟩],
              by simp [recordSend, hs, hsp, he], by simp⟩, ?_, ?_⟩
          · simp [recordSend, hp]
          · simp [recordSend, hr]
        · simp only [hsp, if_neg he]
          obtain ⟨⟨new, hnew, hnu⟩, hp2, hr2⟩ :=
            ih (terminateBroker { recordSend false b (env s1.sends.length b.id) s1 with defaultBroker := none } b.id)
          refine ⟨⟨new ++ [⟨false, b.id, (env s1.sends.length b.id).gotResponse,
              (env s1.sends.length b.id).errE, (env s1.sends.length b.id).stale⟩], ?_, ?_⟩, ?_, ?_⟩
          · rw [hnew]
            simp [terminateBroker, recordSend, hs, hsp]
          · intro ev hev
            rcases List.mem_append.1 hev with h1 | h1
            · exact hnu ev h1
            · simp at h1; simp [h1]
          · rw [hp2]; simp [terminateBroker, recordSend, hp]
          · rw [hr2]; simp [terminateBroker, recordSend, hr]

theorem sendToAny_trace (env : Env) (s : brokerManager) :
    (∃ new, (sendToAny env s).2.sends = new ++ s.sends ∧ ∀ e ∈ new, e.userReq = false)
      ∧ (sendToAny env s).2.partitions = s.partitions
      ∧ (sendToAny env s).2.refreshes = s.refreshes :=
  sendToAnyAux_trace env (s.brokers.length + 2) s

theorem applyTopics_preserves : ∀ (ts : List topicMetadata) (s : brokerManager),
    (applyTopics ts s).2.brokers = s.brokers ∧ (applyTopics ts s).2.sends = s.sends
      ∧ (applyTopics ts s).2.refreshes = s.refreshes
      ∧ (applyTopics ts s).2.defaultBroker = s.defaultBroker := by
  intro ts
  induction ts with
  | nil => intro s; exact ⟨rfl, rfl, rfl, rfl⟩
  | cons t ts ih =>
    intro s
    by_cases ht : t.err = NO_ERROR
    · simp only [applyTopics, ht, ne_eq, not_true_eq_false, if_false]
      rcases hb : buildInner t.partitions [] with ⟨oe, acc⟩
      cases oe with
      | some e => simp [hb]
      | none =>
        simp only [hb]
        exact ih { s with partitions := setTopic s.partitions t.name acc }
    · simp [applyTopics, ht]

theorem refreshTopics_trace (env : Env) (ts : List String) (s : brokerManager) :
    (∃ new, (refreshTopics env ts s).2.sends = new ++ s.sends ∧ ∀ e ∈ new, e.userReq = false)
      ∧ (refreshTopics env ts s).2.refreshes = ts :: s.refreshes := by
  unfold refreshTopics
  rcases hsa : sendToAny env { s with refreshes := ts :: s.refreshes } with ⟨r, s1⟩
  have htr := sendToAny_trace env { s with refreshes := ts :: s.refreshes }
  rw [hsa] at htr
  obtain ⟨⟨new, hnew, hnu⟩, hp, hr⟩ := htr
  simp only [hsa]
  cases hre : r.errE with
  | none =>
    simp only [hre]
    unfold applyMetadata
    obtain ⟨hb2, hs2, hr2, hd2⟩ := applyTopics_preserves r.meta.topics
      { s1 with brokers := r.meta.brokers.foldl upsertBroker s1.brokers }
    refine ⟨⟨new, ?_, hnu⟩, ?_⟩
    · rw [hs2]; exact hnew
    · rw [hr2]; exact hr
  | some e =>
    simp only [hre]
    exact ⟨⟨new, hnew, hnu⟩, hr⟩

theorem refreshTopics_userSends (env : Env) (ts : List String) (s : brokerManager) :
    userSends (refreshTopics env ts s).2.sends = userSends s.sends := by
  obtain ⟨⟨new, hnew, hnu⟩, _⟩ := refreshTopics_trace env ts s
  rw [hnew, userSends_append, userSends_of_nonuser new hnu]
  omega

theorem getValidLeader_trace (env : Env) (t : String) (p : Int) (s : brokerManager) :
    ∃ new, (getValidLeader env t p s).2.sends = new ++ s.sends ∧ ∀ e ∈ new, e.userReq = false := by
  unfold getValidLeader
  cases hgl : getLeader s t p with
  | some b => exact ⟨[], rfl, by simp⟩
  | none =>
    simp only [hgl, refreshTopic]
    rcases hrf : refreshTopics env [t] s with ⟨e, s1⟩
    have htr := refreshTopics_trace env [t] s
    rw [hrf] at htr
    obtain ⟨⟨new, hnew, hnu⟩, _⟩ := htr
    cases e with
    | some err => exact ⟨new, hnew, hnu⟩
    | none =>
      cases getLeader s1 t p with
      | some b => exact ⟨new, hnew, hnu⟩
      | none => exact ⟨new, hnew, hnu⟩

theorem getValidLeader_userSends (env : Env) (t : String) (p : Int) (s : brokerManager) :
    userSends (getValidLeader env t p s).2.sends = userSends s.sends := by
  obtain ⟨new, hnew, hnu⟩ := getValidLeader_trace env t p s
  rw [hnew, userSends_append, userSends_of_nonuser new hnu]
  omega

theorem secondAttempt_userSends_le (env : Env) (t : String) (p : Int) (s : brokerManager) :
    userSends (secondAttempt env t p s).2.sends ≤ userSends s.sends + 1 := by
  unfold secondAttempt
  rcases hgv : getValidLeader env t p s with ⟨r, s1⟩
  have hus := getValidLeader_userSends env t p s
  rw [hgv] at hus
  have hus1 : userSends s1.sends = userSends s.sends := hus
  cases r with
  | error e =>
    simp only []
    omega
  | ok b =>
    simp only [doSend, recordSend]
    rw [userSends_cons_user _ _ rfl]
    omega

theorem secondAttempt_userSends_of_true (env : Env) (t : String) (p : Int) (s : brokerManager)
    (h : (secondAttempt env t p s).1.1 = true) :
    userSends (secondAttempt env t p s).2.sends = userSends s.sends + 1 := by
  unfold secondAttempt at h ⊢
  rcases hgv : getValidLeader env t p s with ⟨r, s1⟩
  have hus := getValidLeader_userSends env t p s
  rw [hgv] at hus
  have hus1 : userSends s1.sends = userSends s.sends := hus
  rw [hgv] at h
  cases r with
  | error e => simp at h
  | ok b =>
    simp only [doSend, recordSend]
    rw [userSends_cons_user _ _ rfl]
    omega

theorem sendToPartition_userSends_le_aux (env : Env) (topic : String) (p : Int) (s : brokerManager) :
    userSends (sendToPartition env topic p s).2.sends ≤ userSends s.sends + 2 := by
  unfold sendToPartition
  rcases hgv : getValidLeader env topic p s with ⟨r, s1⟩
  have hus1 : userSends s1.sends = userSends s.sends := by
    have h := getValidLeader_userSends env topic p s
    rw [hgv] at h
    exact h
  cases r with
  | error e =>
    simp only []
    omega
  | ok b =>
    simp only [doSend]
    have hrs : userSends (recordSend true b (env s1.sends.length b.id) s1).sends
        = userSends s.sends + 1 := by
      simp only [recordSend]
      rw [userSends_cons_user _ _ rfl]
      omega
    cases hspe : (env s1.sends.length b.id).errE with
    | none =>
      simp only [hspe]
      cases hgr : (env s1.sends.length b.id).gotResponse with
      | false =>
        simp only [hgr, Bool.false_eq_true, if_false]
        omega
      | true =>
        simp only [hgr, if_true]
        by_cases hst : (env s1.sends.length b.id).stale.length = 0
        · rw [if_pos hst]
          show userSends (recordSend true b (env s1.sends.length b.id) s1).sends
            ≤ userSends s.sends + 2
          omega
        · simp only [if_neg hst]
          rcases hrf : refreshTopics env (env s1.sends.length b.id).stale
              (recordSend true b (env s1.sends.length b.id) s1) with ⟨e3, s3⟩
          have hu3 : userSends s3.sends = userSends s.sends + 1 := by
            have h := refreshTopics_userSends env (env s1.sends.length b.id).stale
              (recordSend true b (env s1.sends.length b.id) s1)
            rw [hrf] at h
            have h' : userSends s3.sends
                = userSends (recordSend true b (env s1.sends.length b.id) s1).sends := h
            omega
          cases e3 with
          | some err =>
            simp only []
            omega
          | none =>
            simp only []
            have h := secondAttempt_userSends_le env topic p s3
            omega
    | some e =>
      simp only [hspe]
      by_cases he : e = KError.encodingError
      · rw [if_pos he]
        show userSends (recordSend true b (env s1.sends.length b.id) s1).sends
          ≤ userSends s.sends + 2
        omega
      · simp only [if_neg he]
        have h := secondAttempt_userSends_le env topic p
          (terminateBroker (recordSend true b (env s1.sends.length b.id) s1) b.id)
        have h2 : userSends (terminateBroker (recordSend true b (env s1.sends.length b.id) s1) b.id).sends
            = userSends s.sends + 1 := hrs
        omega

/-! ### `sendToAny` under total failure -/

/-- The ids a `sendToAny` iteration can target: the default slot's id and the
keys of the `brokers` map. -/
def poolIds (s : brokerManager) : List Int :=
  (match s.defaultBroker with | some b => [b.id] | none => []) ++ s.brokers.map (fun x => x.id)

theorem mem_map_removeBroker (l : List broker) (k i : Int)
    (h : i ∈ (removeBroker l k).map (fun x => x.id)) :
    i ∈ l.map (fun x => x.id) ∧ i ≠ k := by
  induction l with
  | nil => simp [removeBroker] at h
  | cons b rest ih =>
    by_cases hb : b.id = k
    · simp only [removeBroker, if_pos hb] at h
      rcases ih h with ⟨h1, h2⟩
      exact ⟨by simp [List.mem_cons]; right; simpa using h1, h2⟩
    · simp only [removeBroker, if_neg hb, List.map_cons, List.mem_cons] at h
      rcases h with h | h
      · subst h
        exact ⟨by simp, hb⟩
      · rcases ih h with ⟨h1, h2⟩
        exact ⟨by simp [List.mem_cons]; right; simpa using h1, h2⟩

theorem getDefault_some_mem (s : brokerManager) (b : broker) (s1 : brokerManager)
    (h : getDefault s = (some b, s1)) : b.id ∈ poolIds s := by
  rcases s with ⟨d, bs, ps, sd, rf⟩
  cases d with
  | some b' =>
    simp only [getDefault] at h
    injection h with h1 h2
    injection h1 with h1
    subst h1
    simp [poolIds]
  | none =>
    cases bs with
    | nil => simp [getDefault] at h
    | cons b' rest =>
      simp only [getDefault] at h
      injection h with h1 h2
      injection h1 with h1
      subst h1
      simp [poolIds]

theorem sendToAnyAux_allFail (env : Env)
    (henv : ∀ n i, (env n i).errE ≠ none ∧ (env n i).errE ≠ some KError.encodingError) :
    ∀ (fuel : Nat) (s : brokerManager),
      (sendToAnyAux env fuel s).1 = ⟨false, some KError.outOfBrokers, emptyMetadata⟩
      ∧ ∃ new, (sendToAnyAux env fuel s).2.sends = new ++ s.sends
          ∧ (new.map (fun e => e.brokerId)).Nodup
          ∧ ∀ e ∈ new, e.brokerId ∈ poolIds s := by
  intro fuel
  induction fuel with
  | zero => intro s; exact ⟨rfl, ⟨[], rfl, by simp, by simp⟩⟩
  | succ n ih =>
    intro s
    rcases hgd : getDefault s with ⟨ob, s1⟩
    obtain ⟨hb, hp, hs, hr⟩ := getDefault_eq s ob s1 hgd
    cases ob with
    | none =>
      simp only [sendToAnyAux, hgd]
      refine ⟨by simp, ⟨[], by simp [hs], by simp, by simp⟩⟩
    | some b =>
      have hbid := getDefault_some_mem s b s1 hgd
      simp only [sendToAnyAux, hgd, doSend]
      rcases hsp : (env s1.sends.length b.id).errE with _ | e
      · exact absurd hsp (henv s1.sends.length b.id).1
      · have hne : e ≠ KError.encodingError := by
          intro hcon
          exact (henv s1.sends.length b.id).2 (by rw [hsp, hcon])
        simp only [hsp, if_neg hne]
        obtain ⟨h1, new, hnew, hnd, hpool⟩ :=
          ih (terminateBroker { recordSend false b (env s1.sends.length b.id) s1 with defaultBroker := none } b.id)
        refine ⟨h1, ⟨new ++ [⟨false, b.id, (env s1.sends.length b.id).gotResponse,
            (env s1.sends.length b.id).errE, (env s1.sends.length b.id).stale⟩], ?_, ?_, ?_⟩⟩
        · rw [hnew]
          simp [terminateBroker, recordSend, hs, hsp]
        · rw [List.map_append]
          refine List.Nodup.append hnd (by simp) ?_
          intro i hi1 hi2
          have hi2' : i = b.id := by simpa using hi2
          subst hi2'
          rcases List.mem_map.1 hi1 with ⟨ev, hev, hevid⟩
          have hpi := hpool ev hev
          simp only [poolIds, terminateBroker, recordSend, List.nil_append] at hpi
          have hm := mem_map_removeBroker _ _ _ hpi
          exact hm.2 hevid
        · intro ev hev
          rcases List.mem_append.1 hev with h2 | h2
          · have hpi := hpool ev h2
            simp only [poolIds, terminateBroker, recordSend] at hpi
            simp only [List.nil_append] at hpi
            have hm := mem_map_removeBroker _ _ _ hpi
            simp only [poolIds]
            rw [List.mem_append]
            right
            rw [← hb]
            exact hm.1
          · simp only [List.mem_singleton] at h2
            subst h2
            exact hbid

/-! ### Claim theorems -/

/-- **C3.** If every `sendAndReceive` on every broker returns a non-nil,
non-encoding error, then `sendToAny` terminates (it is a total function of
the model) returning `(false, OutOfBrokers)`, and the send events added
during the call target pairwise-distinct broker ids, so `sendAndReceive`
is called on each broker at most once during the call. -/
theorem sendToAny_allFail_outOfBrokers (env : Env) (s : brokerManager)
    (henv : ∀ n i, (env n i).errE ≠ none ∧ (env n i).errE ≠ some KError.encodingError) :
    (sendToAny env s).1 = ⟨false, some KError.outOfBrokers, emptyMetadata⟩
    ∧ ∃ new, (sendToAny env s).2.sends = new ++ s.sends
        ∧ (new.map (fun e => e.brokerId)).Nodup := by
  obtain ⟨h1, new, h2, h3, h4⟩ := sendToAnyAux_allFail env henv (s.brokers.length + 2) s
  exact ⟨h1, new, h2, h3⟩

/-- Witness for **C3**: a concrete all-failing network and a state with a
default broker and two cached brokers. -/
theorem sendToAny_allFail_outOfBrokers_witness :
    (sendToAny envFail sFail).1 = ⟨false, some KError.outOfBrokers, emptyMetadata⟩
    ∧ ∃ new, (sendToAny envFail sFail).2.sends = new ++ sFail.sends
        ∧ (new.map (fun e => e.brokerId)).Nodup :=
  sendToAny_allFail_outOfBrokers envFail sFail (fun n i => ⟨by simp [envFail], by simp [envFail]⟩)

/-- **C7.** `getLeader` is a pure lookup — it takes no network environment
and returns no new state, so it performs no refresh and no I/O — and it
returns `none` exactly when the topic is absent from `partitions`, or the
partition id is absent from the topic's inner map, or the partition
record's leader id is not a key of `brokers`; otherwise it returns the
broker stored under that leader id. -/
theorem getLeader_lookup_characterization (s : brokerManager) (topic : String) (pid : Int) :
    (getLeader s topic pid = none ↔
      tlookup s.partitions topic = none
      ∨ (∃ m, tlookup s.partitions topic = some m ∧ findPart m pid = none)
      ∨ (∃ m p, tlookup s.partitions topic = some m ∧ findPart m pid = some p
          ∧ findBroker s.brokers p.leader = none))
    ∧ ∀ b : broker, (getLeader s topic pid = some b ↔
        ∃ m p, tlookup s.partitions topic = some m ∧ findPart m pid = some p
          ∧ findBroker s.brokers p.leader = some b) := by
  unfold getLeader
  cases ht : tlookup s.partitions topic with
  | none => simp
  | some m =>
    cases hp : findPart m pid with
    | none => simp [hp]
    | some p => simp [hp]

/-- **C6.** If the leader resolves and the first `sendAndReceive` returns an
`EncodingError`, then `sendToPartition` returns `(false, EncodingError)`
immediately: the final state is the post-resolution state plus exactly one
send event, so no second send happens, no broker is terminated, and the
`brokers` and `partitions` maps are unchanged by the send handling. -/
theorem sendToPartition_encodingError_immediate (env : Env) (topic : String) (p : Int)
    (s s1 : brokerManager) (b : broker)
    (hgv : getValidLeader env topic p s = (Except.ok b, s1))
    (henc : (env s1.sends.length b.id).errE = some KError.encodingError) :
    sendToPartition env topic p s
      = ((false, some KError.encodingError), recordSend true b (env s1.sends.length b.id) s1)
    ∧ (recordSend true b (env s1.sends.length b.id) s1).brokers = s1.brokers
    ∧ (recordSend true b (env s1.sends.length b.id) s1).partitions = s1.partitions
    ∧ userSends (recordSend true b (env s1.sends.length b.id) s1).sends
        = userSends s1.sends + 1 := by
  refine ⟨?_, rfl, rfl, ?_⟩
  · unfold sendToPartition
    rw [hgv]
    simp [doSend, henc]
  · simp only [recordSend]
    rw [userSends_cons_user _ _ rfl]

/-- Witness for **C6**: a concrete state with a cached leader and a network
that fails every send with an encoding error. -/
theorem sendToPartition_encodingError_immediate_witness :
    sendToPartition env6 "t" 0 s6
      = ((false, some KError.encodingError), recordSend true b1 (env6 s6.sends.length b1.id) s6)
    ∧ (recordSend true b1 (env6 s6.sends.length b1.id) s6).brokers = s6.brokers
    ∧ (recordSend true b1 (env6 s6.sends.length b1.id) s6).partitions = s6.partitions
    ∧ userSends (recordSend true b1 (env6 s6.sends.length b1.id) s6).sends
        = userSends s6.sends + 1 :=
  sendToPartition_encodingError_immediate env6 "t" 0 s6 s6 b1 (by decide) (by decide)

/-- **C8.** On a topic absent from the cache, `partitionsForTopic` triggers
exactly one refresh (the refresh trace gains exactly the one entry
`[topic]`) and then either propagates the refresh's error, or returns
`UNKNOWN_TOPIC_OR_PARTITION` if the topic is still absent, or returns the
partition id list found in the refreshed cache. -/
theorem partitionsForTopic_unknown_topic (env : Env) (topic : String) (s : brokerManager)
    (h : tlookup s.partitions topic = none) :
    (partitionsForTopic env topic s).2.refreshes = [topic] :: s.refreshes
    ∧ ((∃ e, (refreshTopic env topic s).1 = some e
          ∧ (partitionsForTopic env topic s).1 = Except.error e)
       ∨ ((refreshTopic env topic s).1 = none
          ∧ tlookup (partitionsForTopic env topic s).2.partitions topic = none
          ∧ (partitionsForTopic env topic s).1 = Except.error UNKNOWN_TOPIC_OR_PARTITION)
       ∨ ((refreshTopic env topic s).1 = none
          ∧ ∃ m, tlookup (partitionsForTopic env topic s).2.partitions topic = some m
              ∧ (partitionsForTopic env topic s).1 = Except.ok (m.map (fun p => p.id)))) := by
  unfold partitionsForTopic
  rw [h]
  rcases hrf : refreshTopic env topic s with ⟨e, s1⟩
  have hrfr : s1.refreshes = [topic] :: s.refreshes := by
    have h2 : (refreshTopic env topic s).2.refreshes = [topic] :: s.refreshes :=
      (refreshTopics_trace env [topic] s).2
    rw [hrf] at h2
    exact h2
  cases e with
  | some err =>
    simp only []
    exact ⟨hrfr, Or.inl ⟨err, rfl, rfl⟩⟩
  | none =>
    simp only []
    cases hm : tlookup s1.partitions topic with
    | none =>
      exact ⟨hrfr, Or.inr (Or.inl ⟨by trivial, hm, by trivial⟩)⟩
    | some m =>
      exact ⟨hrfr, Or.inr (Or.inr ⟨by trivial, m, hm, by trivial⟩)⟩

/-- Witness for **C8**: a state with topic `"t"` absent and a network whose
refresh reports partitions 0 and 4 for `"t"`. -/
theorem partitionsForTopic_unknown_topic_witness :
    (partitionsForTopic env8 "t" s8).2.refreshes = ["t"] :: s8.refreshes
    ∧ ((∃ e, (refreshTopic env8 "t" s8).1 = some e
          ∧ (partitionsForTopic env8 "t" s8).1 = Except.error e)
       ∨ ((refreshTopic env8 "t" s8).1 = none
          ∧ tlookup (partitionsForTopic env8 "t" s8).2.partitions "t" = none
          ∧ (partitionsForTopic env8 "t" s8).1 = Except.error UNKNOWN_TOPIC_OR_PARTITION)
       ∨ ((refreshTopic env8 "t" s8).1 = none
          ∧ ∃ m, tlookup (partitionsForTopic env8 "t" s8).2.partitions "t" = some m
              ∧ (partitionsForTopic env8 "t" s8).1 = Except.ok (m.map (fun p => p.id)))) :=
  partitionsForTopic_unknown_topic env8 "t" s8 (by decide)

/-- **C9.** If the first attempt of `sendToPartition` decodes a response
whose `staleTopics()` is non-empty and the refresh of those topics fails,
the call returns `(true, that error)` without a second send of the
caller's request — so `(gotResponse = true, error ≠ nil)` is a possible
output of `sendToPartition`. -/
theorem sendToPartition_staleRefreshError (env : Env) (topic : String) (p : Int)
    (s s1 : brokerManager) (b : broker) (e : KError)
    (hgv : getValidLeader env topic p s = (Except.ok b, s1))
    (hnil : (env s1.sends.length b.id).errE = none)
    (hgr : (env s1.sends.length b.id).gotResponse = true)
    (hst : (env s1.sends.length b.id).stale ≠ [])
    (hrf : (refreshTopics env (env s1.sends.length b.id).stale
        (recordSend true b (env s1.sends.length b.id) s1)).1 = some e) :
    sendToPartition env topic p s
      = ((true, some e), (refreshTopics env (env s1.sends.length b.id).stale
          (recordSend true b (env s1.sends.length b.id) s1)).2)
    ∧ userSends (refreshTopics env (env s1.sends.length b.id).stale
          (recordSend true b (env s1.sends.length b.id) s1)).2.sends
        = userSends s.sends + 1 := by
  constructor
  · unfold sendToPartition
    rw [hgv]
    simp only [doSend, hnil, hgr, if_true]
    rw [if_neg (fun hlen => hst (List.length_eq_zero.mp hlen))]
    rcases hr2 : refreshTopics env (env s1.sends.length b.id).stale
        (recordSend true b (env s1.sends.length b.id) s1) with ⟨e2, s3⟩
    rw [hr2] at hrf
    have he2 : e2 = some e := hrf
    subst he2
    simp only []
  · have h1 : userSends (refreshTopics env (env s1.sends.length b.id).stale
          (recordSend true b (env s1.sends.length b.id) s1)).2.sends
        = userSends (recordSend true b (env s1.sends.length b.id) s1).sends :=
      refreshTopics_userSends env _ _
    have h2 : userSends (recordSend true b (env s1.sends.length b.id) s1).sends
        = userSends s1.sends + 1 := by
      simp only [recordSend]
      rw [userSends_cons_user _ _ rfl]
    have h3 : userSends s1.sends = userSends s.sends := by
      have h4 := getValidLeader_userSends env topic p s
      rw [hgv] at h4
      exact h4
    omega

/-- Witness for **C9**: the first send reports `"t"` stale, every further
send fails, so the refresh ends in `OutOfBrokers` after the broker pool is
exhausted, and the call returns `(true, OutOfBrokers)`. -/
theorem sendToPartition_staleRefreshError_witness :
    sendToPartition env9 "t" 0 s9
      = ((true, some KError.outOfBrokers), (refreshTopics env9 (env9 s9.sends.length b1.id).stale
          (recordSend true b1 (env9 s9.sends.length b1.id) s9)).2)
    ∧ userSends (refreshTopics env9 (env9 s9.sends.length b1.id).stale
          (recordSend true b1 (env9 s9.sends.length b1.id) s9)).2.sends
        = userSends s9.sends + 1 :=
  sendToPartition_staleRefreshError env9 "t" 0 s9 s9 b1 KError.outOfBrokers
    (by decide) (by decide) (by decide) (by decide) (by decide)

/-! ### Cache-update lemmas -/

theorem buildInner_fst : ∀ (ps acc : List partitionMetadata),
    (buildInner ps acc).1 = firstPartErr ps := by
  intro ps
  induction ps with
  | nil => intro acc; rfl
  | cons p ps ih =>
    intro acc
    by_cases hp : p.err = NO_ERROR
    · simp [buildInner, firstPartErr, hp, ih]
    · simp [buildInner, firstPartErr, hp]

theorem buildInner_none : ∀ (ps acc : List partitionMetadata), firstPartErr ps = none →
    buildInner ps acc = (none, ps.foldl insertPart acc) := by
  intro ps
  induction ps with
  | nil => intro acc h; rfl
  | cons p ps ih =>
    intro acc h
    by_cases hp : p.err = NO_ERROR
    · simp only [firstPartErr, hp, ne_eq, not_true_eq_false, if_false] at h
      simp only [buildInner, hp, ne_eq, not_true_eq_false, if_false, List.foldl_cons]
      exact ih (insertPart acc p) h
    · simp [firstPartErr, hp] at h
  
theorem buildInner_some : ∀ (ps acc : List partitionMetadata) (e : Int),
    firstPartErr ps = some e →
    buildInner ps acc = (some e, (goodPrefix ps).foldl insertPart acc) := by
  intro ps
  induction ps with
  | nil => intro acc e h; simp [firstPartErr] at h
  | cons p ps ih =>
    intro acc e h
    by_cases hp : p.err = NO_ERROR
    · simp only [firstPartErr, hp, ne_eq, not_true_eq_false, if_false] at h
      simp only [buildInner, goodPrefix, hp, ne_eq, not_true_eq_false, if_false, if_pos rfl,
        List.foldl_cons]
      exact ih (insertPart acc p) e h
    · simp only [firstPartErr, ne_eq, hp, not_false_eq_true, if_true, Option.some.injEq] at h
      subst h
      simp [buildInner, goodPrefix, hp]

theorem tlookup_setTopic_self : ∀ (l : List (String × List partitionMetadata))
    (k : String) (m : List partitionMetadata), tlookup (setTopic l k m) k = some m := by
  intro l
  induction l with
  | nil => intro k m; simp [setTopic, tlookup]
  | cons x rest ih =>
    intro k m
    by_cases hx : x.1 = k
    · simp [setTopic, hx, tlookup]
    · rcases x with ⟨n, old⟩
      simp only at hx
      simp [setTopic, hx, tlookup, ih]

theorem tlookup_setTopic_other : ∀ (l : List (String × List partitionMetadata))
    (k : String) (m : List partitionMetadata) (k' : String), k ≠ k' →
    tlookup (setTopic l k m) k' = tlookup l k' := by
  intro l
  induction l with
  | nil => intro k m k' hk; simp [setTopic, tlookup, hk]
  | cons x rest ih =>
    intro k m k' hk
    rcases x with ⟨n, old⟩
    by_cases hx : n = k
    · subst hx
      simp [setTopic, tlookup, hk]
    · simp [setTopic, hx, tlookup, ih _ m _ hk]

theorem applyTopics_lookup_not_mem : ∀ (ts : List topicMetadata) (s : brokerManager)
    (name : String), name ∉ ts.map (fun t => t.name) →
    tlookup (applyTopics ts s).2.partitions name = tlookup s.partitions name := by
  intro ts
  induction ts with
  | nil => intro s name h; rfl
  | cons t ts ih =>
    intro s name h
    simp only [List.map_cons, List.mem_cons, not_or] at h
    obtain ⟨h1, h2⟩ := h
    by_cases ht : t.err = NO_ERROR
    · simp only [applyTopics, ht, ne_eq, not_true_eq_false, if_false]
      rcases hb : buildInner t.partitions [] with ⟨oe, acc⟩
      cases oe with
      | some e =>
        simp only []
        exact tlookup_setTopic_other _ _ _ _ (fun hc => h1 hc.symm)
      | none =>
        simp only []
        rw [ih _ name h2]
        exact tlookup_setTopic_other _ _ _ _ (fun hc => h1 hc.symm)
    · simp [applyTopics, ht]

theorem applyTopics_fst : ∀ (ts : List topicMetadata) (s : brokerManager),
    (applyTopics ts s).1 = (specFirstErrorCode ts).map KError.kafkaError := by
  intro ts
  induction ts with
  | nil => intro s; rfl
  | cons t ts ih =>
    intro s
    by_cases ht : t.err = NO_ERROR
    · simp only [applyTopics, specFirstErrorCode, ht, ne_eq, not_true_eq_false, if_false]
      rcases hb : buildInner t.partitions [] with ⟨oe, acc⟩
      have hfst : oe = firstPartErr t.partitions := by
        have h := buildInner_fst t.partitions []
        rw [hb] at h
        exact h
      cases hfp : firstPartErr t.partitions with
      | some e =>
        rw [hfp] at hfst
        subst hfst
        simp
      | none =>
        rw [hfp] at hfst
        subst hfst
        simp only []
        exact ih _
    · simp [applyTopics, specFirstErrorCode, ht]

theorem applyTopics_processed : ∀ (ts : List topicMetadata) (s : brokerManager),
    (ts.map (fun t => t.name)).Nodup →
    ∀ t ∈ specProcessedTopics ts,
      tlookup (applyTopics ts s).2.partitions t.name = some (t.partitions.foldl insertPart []) := by
  intro ts
  induction ts with
  | nil => intro s hnd t ht; simp [specProcessedTopics] at ht
  | cons t0 ts ih =>
    intro s hnd t ht
    by_cases hc : t0.err = NO_ERROR ∧ firstPartErr t0.partitions = none
    · rw [specProcessedTopics, if_pos hc] at ht
      simp only [List.map_cons, List.nodup_cons] at hnd
      obtain ⟨hn1, hn2⟩ := hnd
      simp only [applyTopics, hc.1, ne_eq, not_true_eq_false, if_false]
      rw [buildInner_none t0.partitions [] hc.2]
      simp only []
      rcases List.mem_cons.1 ht with h | h
      · subst h
        rw [applyTopics_lookup_not_mem ts _ t.name hn1]
        exact tlookup_setTopic_self _ _ _
      · exact ih _ hn2 t h
    · rw [specProcessedTopics, if_neg hc] at ht
      simp at ht

theorem findBroker_upsert_self : ∀ (l : List broker) (b : broker),
    findBroker (upsertBroker l b) b.id = some b := by
  intro l
  induction l with
  | nil => intro b; simp [upsertBroker, findBroker]
  | cons x rest ih =>
    intro b
    by_cases hx : x.id = b.id
    · simp [upsertBroker, hx, findBroker]
    · simp [upsertBroker, hx, findBroker, ih]

theorem findBroker_upsert_preserve : ∀ (l : List broker) (b : broker) (i : Int),
    (findBroker l i).isSome → (findBroker (upsertBroker l b) i).isSome := by
  intro l
  induction l with
  | nil => intro b i h; simp [findBroker] at h
  | cons x rest ih =>
    intro b i h
    by_cases hx : x.id = b.id
    · simp only [upsertBroker, if_pos hx, findBroker]
      by_cases hbi : b.id = i
      · simp [hbi]
      · simp only [hbi, if_false]
        simp only [findBroker] at h
        rw [hx] at h
        simp only [hbi, if_false] at h
        exact h
    · simp only [upsertBroker, if_neg hx, findBroker]
      by_cases hxi : x.id = i
      · simp [hxi]
      · simp only [hxi, if_false]
        simp only [findBroker, hxi, if_false] at h
        exact ih b i h

theorem findBroker_foldl_preserve : ∀ (bs l : List broker) (i : Int),
    (findBroker l i).isSome → (findBroker (bs.foldl upsertBroker l) i).isSome := by
  intro bs
  induction bs with
  | nil => intro l i h; exact h
  | cons x rest ih =>
    intro l i h
    simp only [List.foldl_cons]
    exact ih _ i (findBroker_upsert_preserve l x i h)

theorem findBroker_foldl_mem : ∀ (bs l : List broker) (b : broker), b ∈ bs →
    (findBroker (bs.foldl upsertBroker l) b.id).isSome := by
  intro bs
  induction bs with
  | nil => intro l b h; simp at h
  | cons x rest ih =>
    intro l b h
    rcases List.mem_cons.1 h with h | h
    · subst h
      simp only [List.foldl_cons]
      refine findBroker_foldl_preserve rest (upsertBroker l b) b.id ?_
      rw [findBroker_upsert_self]
      rfl
    · simp only [List.foldl_cons]
      exact ih _ b h

/-- **C4.** The cache update of `refreshTopics` returns exactly the first
topic-level or partition-level error code encountered in response order
(`none` when the response is error-free); the broker upserts are applied
in full regardless; and, when the response's topic names are distinct,
every topic fully processed before the stopping point keeps its wholesale
replaced inner map in the cache. -/
theorem refreshTopics_cacheUpdate_firstError (m : metadata) (s : brokerManager)
    (hnd : (m.topics.map (fun t => t.name)).Nodup) :
    (applyMetadata m s).1 = (specFirstErrorCode m.topics).map KError.kafkaError
    ∧ (applyMetadata m s).2.brokers = m.brokers.foldl upsertBroker s.brokers
    ∧ ∀ t ∈ specProcessedTopics m.topics,
        tlookup (applyMetadata m s).2.partitions t.name
          = some (t.partitions.foldl insertPart []) := by
  unfold applyMetadata
  exact ⟨applyTopics_fst _ _, (applyTopics_preserves _ _).1, applyTopics_processed _ _ hnd⟩

/-- Witness for **C4**: a concrete response whose second topic carries a
partition-level error code 5 and whose third topic carries topic-level
error code 4; the update reports 5 and keeps topic `"a"` replaced. -/
theorem refreshTopics_cacheUpdate_firstError_witness :
    (applyMetadata m4 s0empty).1 = (specFirstErrorCode m4.topics).map KError.kafkaError
    ∧ (applyMetadata m4 s0empty).2.brokers = m4.brokers.foldl upsertBroker s0empty.brokers
    ∧ ∀ t ∈ specProcessedTopics m4.topics,
        tlookup (applyMetadata m4 s0empty).2.partitions t.name
          = some (t.partitions.foldl insertPart []) :=
  refreshTopics_cacheUpdate_firstError m4 s0empty (by decide)

/-- **C5 counterexample.** A `refreshTopics` call that returns `nil` after
placing a partition record whose leader id 7 is not a key of the `brokers`
map: the claim that every placed leader id appears in `brokers` after a
successful refresh fails because the code never checks that the response's
broker list covers the leaders it references. -/
theorem refreshTopics_leaderMissing_counterexample :
    (refreshTopics env5 ["t"] s5).1 = none
    ∧ tlookup (refreshTopics env5 ["t"] s5).2.partitions "t" = some [⟨0, 7, 0⟩]
    ∧ findBroker (refreshTopics env5 ["t"] s5).2.brokers 7 = none := by
  decide

/-- **C5 (amended).** Immediately after a successful cache update from a
metadata response in which every referenced leader id is listed among the
response's broker descriptors, every leader id referenced by the
response's partition records (in particular all records the refresh
placed) appears as a key of the `brokers` map. -/
theorem applyMetadata_leader_closed (m : metadata) (s : brokerManager)
    (hok : (applyMetadata m s).1 = none)
    (hwf : ∀ t ∈ m.topics, ∀ p ∈ t.partitions, ∃ b ∈ m.brokers, b.id = p.leader) :
    ∀ t ∈ m.topics, ∀ p ∈ t.partitions,
      (findBroker (applyMetadata m s).2.brokers p.leader).isSome := by
  intro t ht p hp
  obtain ⟨b, hb, hbid⟩ := hwf t ht p hp
  have hbr : (applyMetadata m s).2.brokers = m.brokers.foldl upsertBroker s.brokers := by
    unfold applyMetadata
    exact (applyTopics_preserves _ _).1
  rw [hbr, ← hbid]
  exact findBroker_foldl_mem m.brokers s.brokers b hb

/-- Witness for **C5 (amended)**: a response listing broker 7 and
referencing it as the leader of the only partition it carries; after the
update, leader id 7 is a key of `brokers`. -/
theorem applyMetadata_leader_closed_witness :
    (findBroker (applyMetadata m5w s0empty).2.brokers (7 : Int)).isSome :=
  applyMetadata_leader_closed m5w s0empty (by decide) (by decide)
    ⟨"t", 0, [⟨0, 7, 0⟩]⟩ (by decide) ⟨0, 7, 0⟩ (by decide)

/-- **C10.** When the cache update hits a partition record with a
non-`NO_ERROR` code, the affected topic's inner map has already been
replaced by a new map holding only the partitions that preceded the
failing one in the response; concretely, a failed refresh can remove a
partition (id 5) of the topic that was cached before the call. -/
theorem refreshTopics_partialPartitionUpdate :
    (∀ (bs : List broker) (t : topicMetadata) (ts : List topicMetadata)
        (s : brokerManager) (e : Int),
        t.err = NO_ERROR → firstPartErr t.partitions = some e →
        (applyMetadata ⟨bs, t :: ts⟩ s).1 = some (KError.kafkaError e)
        ∧ tlookup (applyMetadata ⟨bs, t :: ts⟩ s).2.partitions t.name
            = some ((goodPrefix t.partitions).foldl insertPart []))
    ∧ (tlookup s10.partitions "t" = some [⟨5, 1, 0⟩]
       ∧ findPart [⟨5, 1, 0⟩] 5 = some ⟨5, 1, 0⟩
       ∧ (applyMetadata m10 s10).1 = some (KError.kafkaError 6)
       ∧ tlookup (applyMetadata m10 s10).2.partitions "t" = some [⟨0, 1, 0⟩]
       ∧ findPart [⟨0, 1, 0⟩] 5 = none) := by
  constructor
  · intro bs t ts s e ht hp
    unfold applyMetadata applyTopics
    rw [if_neg (by simp [ht])]
    rw [buildInner_some t.partitions [] e hp]
    exact ⟨rfl, tlookup_setTopic_self _ _ _⟩
  · decide

/-- Witness for **C10**: the universal part applied to the concrete
erroneous response `m10` over state `s10`. -/
theorem refreshTopics_partialPartitionUpdate_witness :
    (applyMetadata ⟨[], [⟨"t", 0, [⟨0, 1, 0⟩, ⟨1, 1, 6⟩, ⟨2, 1, 0⟩]⟩]⟩ s10).1
        = some (KError.kafkaError 6)
    ∧ tlookup (applyMetadata ⟨[], [⟨"t", 0, [⟨0, 1, 0⟩, ⟨1, 1, 6⟩, ⟨2, 1, 0⟩]⟩]⟩ s10).2.partitions
          (topicMetadata.name ⟨"t", 0, [⟨0, 1, 0⟩, ⟨1, 1, 6⟩, ⟨2, 1, 0⟩]⟩)
        = some ((goodPrefix [⟨0, 1, 0⟩, ⟨1, 1, 6⟩, ⟨2, 1, 0⟩]).foldl insertPart []) :=
  refreshTopics_partialPartitionUpdate.1 [] ⟨"t", 0, [⟨0, 1, 0⟩, ⟨1, 1, 6⟩, ⟨2, 1, 0⟩]⟩ []
    s10 6 (by decide) (by decide)

/-- **C1 (amended).** A `sendToPartition` call that returns `(true, nil)`
having performed exactly one send of the caller's request did so through
the first-attempt success path, and then the `staleTopics()` of the last
(only) response decoded into the caller's decoder during the call is
empty. (Without the single-send restriction the claim fails: a second
attempt returns `(true, nil)` verbatim even when its response reports
stale topics, see the counterexample.) -/
theorem sendToPartition_true_nil_singleSend_staleEmpty (env : Env) (topic : String) (p : Int)
    (s : brokerManager)
    (hres : (sendToPartition env topic p s).1 = (true, none))
    (hone : userSends (sendToPartition env topic p s).2.sends = userSends s.sends + 1) :
    ∃ new, (sendToPartition env topic p s).2.sends = new ++ s.sends
      ∧ lastUserResponseStale new = some [] := by
  unfold sendToPartition at hres hone ⊢
  rcases hgv : getValidLeader env topic p s with ⟨r, s1⟩
  rw [hgv] at hres hone
  obtain ⟨new1, hnew1, hnu1⟩ := getValidLeader_trace env topic p s
  rw [hgv] at hnew1
  have hnew1' : s1.sends = new1 ++ s.sends := hnew1
  have hus1 : userSends s1.sends = userSends s.sends := by
    have h := getValidLeader_userSends env topic p s
    rw [hgv] at h
    exact h
  cases r with
  | error e => simp at hres
  | ok b =>
    simp only [doSend] at hres hone ⊢
    rcases hsp : (env s1.sends.length b.id).errE with _ | e
    · simp only [hsp] at hres hone ⊢
      cases hgr : (env s1.sends.length b.id).gotResponse with
      | false => simp [hgr] at hres
      | true =>
        simp only [hgr, if_true] at hres hone ⊢
        by_cases hst : (env s1.sends.length b.id).stale.length = 0
        · rw [if_pos hst] at hres hone ⊢
          refine ⟨⟨true, b.id, (env s1.sends.length b.id).gotResponse,
              (env s1.sends.length b.id).errE, (env s1.sends.length b.id).stale⟩ :: new1, ?_, ?_⟩
          · simp [recordSend, hnew1']
          · simp only [lastUserResponseStale, List.filter, decodedUser, hgr, hsp]
            simp [filter_decoded_nil new1 hnu1, List.length_eq_zero.mp hst]
        · rw [if_neg hst] at hres hone ⊢
          rcases hrf : refreshTopics env (env s1.sends.length b.id).stale
              (recordSend true b (env s1.sends.length b.id) s1) with ⟨e3, s3⟩
          rw [hrf] at hres hone
          cases e3 with
          | some err => simp at hres
          | none =>
            have hone' : userSends (secondAttempt env topic p s3).2.sends
                = userSends s.sends + 1 := hone
            have htrue : (secondAttempt env topic p s3).1.1 = true := by
              rw [hres]
            have huser := secondAttempt_userSends_of_true env topic p s3 htrue
            have hu3 : userSends s3.sends
                = userSends (recordSend true b (env s1.sends.length b.id) s1).sends := by
              have h := refreshTopics_userSends env (env s1.sends.length b.id).stale
                (recordSend true b (env s1.sends.length b.id) s1)
              rw [hrf] at h
              exact h
            have hu4 : userSends (recordSend true b (env s1.sends.length b.id) s1).sends
                = userSends s1.sends + 1 := by
              simp only [recordSend]
              rw [userSends_cons_user _ _ rfl]
            omega
    · simp only [hsp] at hres hone ⊢
      by_cases he : e = KError.encodingError
      · rw [if_pos he] at hres
        simp at hres
      · rw [if_neg he] at hres hone ⊢
        have hone' : userSends (secondAttempt env topic p
            (terminateBroker (recordSend true b (env s1.sends.length b.id) s1) b.id)).2.sends
              = userSends s.sends + 1 := hone
        have htrue : (secondAttempt env topic p
            (terminateBroker (recordSend true b (env s1.sends.length b.id) s1) b.id)).1.1
              = true := by
          rw [hres]
        have huser := secondAttempt_userSends_of_true env topic p
          (terminateBroker (recordSend true b (env s1.sends.length b.id) s1) b.id) htrue
        have hu4 : userSends (terminateBroker
            (recordSend true b (env s1.sends.length b.id) s1) b.id).sends
              = userSends s1.sends + 1 := by
          simp only [terminateBroker, recordSend]
          rw [userSends_cons_user _ _ rfl]
        omega

/-- **C1 counterexample.** A concrete run of `sendToPartition` that returns
`(true, nil)` while the last response decoded into the caller's decoder
during that call reports topic `"t"` stale (its `staleTopics()` is
non-empty): the first response was stale, the refresh succeeded, and the
second attempt's `(true, nil)` was returned verbatim without inspecting
the new response's `staleTopics()`. -/
theorem sendToPartition_true_nil_staleNonempty_counterexample :
    (sendToPartition cEnvA "t" 0 cStateA).1 = (true, none)
    ∧ lastUserResponseStale (sendToPartition cEnvA "t" 0 cStateA).2.sends = some ["t"]
    ∧ some ["t"] ≠ some ([] : List String) := by
  exact ⟨by decide, by decide, by decide⟩

/-- Witness for **C1 (amended)**: a clean network; the call returns
`(true, nil)` with one send and its only decoded response has empty
`staleTopics()`. -/
theorem sendToPartition_true_nil_singleSend_staleEmpty_witness :
    ∃ new, (sendToPartition envC1w "t" 0 cStateA).2.sends = new ++ cStateA.sends
      ∧ lastUserResponseStale new = some [] :=
  sendToPartition_true_nil_singleSend_staleEmpty envC1w "t" 0 cStateA (by decide) (by decide)

/-- **C2 counterexample.** A concrete `sendToPartition` call during which
three `sendAndReceive` network sends happen (first attempt, the metadata
request of the stale-topic refresh, second attempt), refuting the claim
that at most two network sends are performed per call. -/
theorem sendToPartition_threeSends_counterexample :
    2 < (sendToPartition cEnvA "t" 0 cStateA).2.sends.length := by
  decide

/-- **C2 (amended).** Every `sendToPartition` call performs at most two
sends of the caller's request (send attempts of the dispatched request).
The bound does not cover all network sends: metadata refreshes triggered
inside the call send as well, see the three-send counterexample. -/
theorem sendToPartition_atMostTwo_userSends (env : Env) (topic : String) (p : Int)
    (s : brokerManager) :
    userSends (sendToPartition env topic p s).2.sends ≤ userSends s.sends + 2 :=
  sendToPartition_userSends_le_aux env topic p s
